import Mathlib

/-!
Verification development for the ceramic-pocket-knife repository.

The Rust sources under src/ are shallowly embedded here:

* src/src/cli.rs      : the CLI grammar (the Command enum and its argument
  structures), embedded as the inductive type CPK.Command.
* src/src/lib.rs      : the run dispatcher, embedded as CPK.run_dispatch.
* src/src/multibase.rs, src/src/ipld.rs, src/src/ceramic.rs,
  src/src/multihash.rs, src/src/p2p.rs, src/src/parquet.rs, src/src/cas.rs :
  each module's Operation enum and its TryFrom<Command> conversion.
* src/src/cas.rs      : throttled_stream and load_gen (the anchor-request
  load generator), embedded as pure functions over Nat; the concurrent
  for_each_concurrent loop is modelled as a fold over the elements the
  stream yields, with the unwrap-on-error panic modelled as an aborting
  outcome.
* src/src/ceramic.rs  : stream_tip_car, embedded parameterically over the
  DAG-CBOR encoder and the SHA2-256 hash (the CAR archive is modelled at
  block granularity).
* src/src/p2p.rs      : the ping event loop, embedded as a function over a
  finite prefix of the swarm event stream.
* the multibase crate operations called by src/src/multibase.rs, embedded
  as executable base-encoding/decoding algorithms.

Machine integers (u32/u64/usize) are modelled as Nat, with explicit
mod 2^32 where the source performs a truncating cast.
-/

namespace CPK

/-! ## CLI grammar (src/src/cli.rs) -/

/-- Shell variants of clap_complete_command::Shell used by CompletionArgs. -/
inductive Shell
  | Bash | Elvish | Fish | PowerShell | Zsh
deriving DecidableEq, Repr

/-- Content identifier: version, codec and multihash bytes (cid::Cid). -/
structure Cid where
  version : Nat
  codec : Nat
  hash : List Nat
deriving DecidableEq, Repr

/-- StreamType value enum (src/src/cli.rs lines 248-252). -/
inductive StreamType
  | Model | Document
deriving DecidableEq, Repr

/-- Network value enum (src/src/cli.rs lines 239-246). -/
inductive Network
  | Mainnet | TestnetClay | DevUnstable | Local | InMemory
deriving DecidableEq, Repr

/-- PrintFormat value enum (src/src/cli.rs lines 366-371). -/
inductive PrintFormat
  | Csv | Json | Pretty
deriving DecidableEq, Repr

/-- CompletionArgs (src/src/cli.rs lines 173-178). -/
structure CompletionArgs where
  shell : Shell
deriving DecidableEq, Repr

/-- StreamIdCreateArgs (src/src/cli.rs lines 180-188). -/
structure StreamIdCreateArgs where
  type : StreamType
  cid : String
deriving DecidableEq, Repr

/-- StreamIdInspectArgs (src/src/cli.rs lines 190-195). -/
structure StreamIdInspectArgs where
  id : String
deriving DecidableEq, Repr

/-- StreamIdGenerateArgs (src/src/cli.rs lines 197-202). -/
structure StreamIdGenerateArgs where
  type : StreamType
deriving DecidableEq, Repr

/-- EventIdGenerateArgs (src/src/cli.rs lines 204-224); u32 as Nat. -/
structure EventIdGenerateArgs where
  network : Network
  local_network_id : Option Nat
  sort_key : Option String
  sort_value : Option String
  controller : Option String
  init_id : Option String
deriving DecidableEq, Repr

/-- EventIdInspectArgs (src/src/cli.rs lines 225-230). -/
structure EventIdInspectArgs where
  event_id : String
deriving DecidableEq, Repr

/-- InterestInspectArgs (src/src/cli.rs lines 232-237). -/
structure InterestInspectArgs where
  interest : String
deriving DecidableEq, Repr

/-- CidInspectArgs (src/src/cli.rs lines 254-259). -/
structure CidInspectArgs where
  cid : String
deriving DecidableEq, Repr

/-- CidFromDataArgs (src/src/cli.rs lines 261-266); u64 codec as Nat. -/
structure CidFromDataArgs where
  codec : Nat
deriving DecidableEq, Repr

/-- CarInspectArgs (src/src/cli.rs lines 268-273). -/
structure CarInspectArgs where
  metadata_only : Bool
deriving DecidableEq, Repr

/-- CarExtractArgs (src/src/cli.rs lines 275-280). -/
structure CarExtractArgs where
  cid : String
deriving DecidableEq, Repr

/-- CarBlockValue (src/src/cli.rs lines 298-303). -/
structure CarBlockValue where
  root : Bool
  cid : Cid
  path : String
deriving DecidableEq, Repr

/-- CarFromBlocksArgs (src/src/cli.rs lines 282-289). -/
structure CarFromBlocksArgs where
  blocks : List CarBlockValue
deriving DecidableEq, Repr

/-- CarToBlocksArgs (src/src/cli.rs lines 291-296). -/
structure CarToBlocksArgs where
  blocks_dir : String
deriving DecidableEq, Repr

/-- DagCborIndexArgs (src/src/cli.rs lines 323-328). -/
structure DagCborIndexArgs where
  index : String
deriving DecidableEq, Repr

/-- PingArgs (src/src/cli.rs lines 330-347); usize/u32 as Nat. -/
structure PingArgs where
  peer_addr : String
  count : Nat
  interval : Nat
  timeout : Nat
deriving DecidableEq, Repr

/-- IdentifyArgs (src/src/cli.rs lines 348-353). -/
structure IdentifyArgs where
  peer_addr : String
deriving DecidableEq, Repr

/-- ParquetDump args struct (src/src/cli.rs lines 355-364). -/
structure ParquetDump where
  files : List String
  format : PrintFormat
deriving DecidableEq, Repr

/-- ParquetInspect args struct (src/src/cli.rs lines 373-378). -/
structure ParquetInspect where
  file : String
deriving DecidableEq, Repr

/-- The CLI Command enum (src/src/cli.rs lines 14-171), with every variant
the snapshot's cli.rs declares (all cargo features enabled). -/
inductive Command
  | Completion (args : CompletionArgs)
  | BaseGuess
  | BaseDecode
  | Base2
  | Base8
  | Base10
  | Base16
  | Base16Upper
  | Base32Hex
  | Base32HexUpper
  | Base32
  | Base32Upper
  | Base32Z
  | Base36
  | Base36Upper
  | Base58Flickr
  | Base58Btc
  | Base64
  | Base64Url
  | MultihashInspect
  | StreamIdCreate (args : StreamIdCreateArgs)
  | StreamIdInspect (args : StreamIdInspectArgs)
  | StreamIdGenerate (args : StreamIdGenerateArgs)
  | StreamIdFromBytes
  | EventIdGenerate (args : EventIdGenerateArgs)
  | EventIdInspect (args : EventIdInspectArgs)
  | EventInspect
  | InterestInspect (args : InterestInspectArgs)
  | DidKeyGenerate
  | PeerIdGenerate
  | CidGenerate
  | CidAsBytes (args : CidInspectArgs)
  | CidInspect (args : CidInspectArgs)
  | CidFromBytes
  | CidFromData (args : CidFromDataArgs)
  | DagJsonToCbor
  | DagCborToJson
  | DagJoseToJson
  | DagCborInspect
  | DagCborIndex (args : DagCborIndexArgs)
  | CarInspect (args : CarInspectArgs)
  | CarExtract (args : CarExtractArgs)
  | CarFromBlocks (args : CarFromBlocksArgs)
  | CarToBlocks (args : CarToBlocksArgs)
  | P2pPing (args : PingArgs)
  | P2pIdentify (args : IdentifyArgs)
  | ParquetDump (args : ParquetDump)
  | ParquetInspect (args : ParquetInspect)
deriving DecidableEq, Repr

/-! ## Module operation enums and their TryFrom<Command> conversions -/

namespace Multibase

/-- Operation enum of src/src/multibase.rs lines 8-27. -/
inductive Operation
  | Guess
  | Decode
  | Base2
  | Base8
  | Base10
  | Base16
  | Base16Upper
  | Base32Hex
  | Base32HexUpper
  | Base32
  | Base32Upper
  | Base32Z
  | Base36
  | Base36Upper
  | Base58Flickr
  | Base58Btc
  | Base64
  | Base64Url
deriving DecidableEq, Repr

/-- TryFrom<Command> for multibase::Operation (src/src/multibase.rs lines
29-55); Err returns the unmatched command. -/
def tryFrom : Command → Except Command Operation
  | Command.BaseGuess => Except.ok Operation.Guess
  | Command.BaseDecode => Except.ok Operation.Decode
  | Command.Base2 => Except.ok Operation.Base2
  | Command.Base8 => Except.ok Operation.Base8
  | Command.Base10 => Except.ok Operation.Base10
  | Command.Base16 => Except.ok Operation.Base16
  | Command.Base16Upper => Except.ok Operation.Base16Upper
  | Command.Base32Hex => Except.ok Operation.Base32Hex
  | Command.Base32HexUpper => Except.ok Operation.Base32HexUpper
  | Command.Base32 => Except.ok Operation.Base32
  | Command.Base32Upper => Except.ok Operation.Base32Upper
  | Command.Base32Z => Except.ok Operation.Base32Z
  | Command.Base36 => Except.ok Operation.Base36
  | Command.Base36Upper => Except.ok Operation.Base36Upper
  | Command.Base58Flickr => Except.ok Operation.Base58Flickr
  | Command.Base58Btc => Except.ok Operation.Base58Btc
  | Command.Base64 => Except.ok Operation.Base64
  | Command.Base64Url => Except.ok Operation.Base64Url
  | value => Except.error value

end Multibase

namespace Ipld

/-- Operation enum of src/src/ipld.rs lines 22-35. -/
inductive Operation
  | CidGenerate
  | CidInspect (args : CidInspectArgs)
  | CidFromBytes
  | CidFromData (args : CidFromDataArgs)
  | DagJsonToCbor
  | DagCborToJson
  | DagJoseToJson
  | DagCborInspect
  | DagCborIndex (args : DagCborIndexArgs)
  | CarInspect (args : CarInspectArgs)
  | CarExtract (args : CarExtractArgs)
  | CarFromBlocks (args : CarFromBlocksArgs)
deriving DecidableEq, Repr

/-- TryFrom<Command> for ipld::Operation (src/src/ipld.rs lines 37-57).
Note that the Command variants CidAsBytes and CarToBlocks declared in
src/src/cli.rs are NOT matched by any arm and fall through to the
catch-all Err. -/
def tryFrom : Command → Except Command Operation
  | Command.CidGenerate => Except.ok Operation.CidGenerate
  | Command.CidInspect args => Except.ok (Operation.CidInspect args)
  | Command.CidFromBytes => Except.ok Operation.CidFromBytes
  | Command.CidFromData args => Except.ok (Operation.CidFromData args)
  | Command.DagJsonToCbor => Except.ok Operation.DagJsonToCbor
  | Command.DagCborToJson => Except.ok Operation.DagCborToJson
  | Command.DagJoseToJson => Except.ok Operation.DagJoseToJson
  | Command.DagCborInspect => Except.ok Operation.DagCborInspect
  | Command.DagCborIndex args => Except.ok (Operation.DagCborIndex args)
  | Command.CarInspect args => Except.ok (Operation.CarInspect args)
  | Command.CarExtract args => Except.ok (Operation.CarExtract args)
  | Command.CarFromBlocks args => Except.ok (Operation.CarFromBlocks args)
  | value => Except.error value

end Ipld

namespace Ceramic

/-- Operation enum of src/src/ceramic.rs lines 31-42, restricted to the
constructors whose argument types exist in this snapshot's cli.rs.
ceramic.rs also lists StreamCreate(StreamCreateArgs),
EventIdDecode(EventIdDecodeArgs), InterestDecode(InterestDecodeArgs) and
SqlDbGenerate(SqlDbGenerateArgs), but cli.rs defines neither those
argument structures nor the corresponding Command variants, so those
constructors are unrepresentable against this snapshot's CLI grammar and
the TryFrom arms producing them can never fire. -/
inductive Operation
  | StreamIdCreate (args : StreamIdCreateArgs)
  | StreamIdInspect (args : StreamIdInspectArgs)
  | StreamIdGenerate (args : StreamIdGenerateArgs)
  | EventIdGenerate (args : EventIdGenerateArgs)
  | DidKeyGenerate
  | PeerIdGenerate
deriving DecidableEq, Repr

/-- TryFrom<Command> for ceramic::Operation (src/src/ceramic.rs lines
44-62), embedded against this snapshot's Command enum: the arms for
Command::StreamCreate, Command::EventIdDecode, Command::InterestDecode and
Command::SqlDbGenerate name constructors that do not exist in cli.rs, so
on every value of the actual Command type they behave as the catch-all.
In particular the cli.rs variants StreamIdFromBytes, EventIdInspect,
EventInspect and InterestInspect are NOT matched. -/
def tryFrom : Command → Except Command Operation
  | Command.StreamIdCreate args => Except.ok (Operation.StreamIdCreate args)
  | Command.StreamIdInspect args => Except.ok (Operation.StreamIdInspect args)
  | Command.StreamIdGenerate args => Except.ok (Operation.StreamIdGenerate args)
  | Command.EventIdGenerate args => Except.ok (Operation.EventIdGenerate args)
  | Command.DidKeyGenerate => Except.ok Operation.DidKeyGenerate
  | Command.PeerIdGenerate => Except.ok Operation.PeerIdGenerate
  | value => Except.error value

end Ceramic

namespace Multihash

/-- Operation enum of src/src/multihash.rs lines 8-10. -/
inductive Operation
  | MultihashInspect
deriving DecidableEq, Repr

/-- TryFrom<Command> for multihash::Operation (src/src/multihash.rs lines
12-21). -/
def tryFrom : Command → Except Command Operation
  | Command.MultihashInspect => Except.ok Operation.MultihashInspect
  | value => Except.error value

end Multihash

namespace P2p

/-- Operation enum of src/src/p2p.rs lines 16-19. -/
inductive Operation
  | Ping (args : PingArgs)
  | Identify (args : IdentifyArgs)
deriving DecidableEq, Repr

/-- TryFrom<Command> for p2p::Operation (src/src/p2p.rs lines 21-31). -/
def tryFrom : Command → Except Command Operation
  | Command.P2pPing args => Except.ok (Operation.Ping args)
  | Command.P2pIdentify args => Except.ok (Operation.Identify args)
  | value => Except.error value

end P2p

namespace Parquet

/-- Operation enum of src/src/parquet.rs lines 14-17. -/
inductive Operation
  | Dump (args : ParquetDump)
  | Inspect (args : ParquetInspect)
deriving DecidableEq, Repr

/-- TryFrom<Command> for parquet::Operation (src/src/parquet.rs lines
19-29). -/
def tryFrom : Command → Except Command Operation
  | Command.ParquetDump args => Except.ok (Operation.Dump args)
  | Command.ParquetInspect args => Except.ok (Operation.Inspect args)
  | value => Except.error value

end Parquet

namespace Cas

/-- CasAnchorRequestArgs, consumed by src/src/cas.rs (anchor_request,
lines 59-84 and 159-165). The structure is not defined in this snapshot's
cli.rs; its fields are taken from the uses in cas.rs (url,
node_controller, r#type, stream_controller, unique). -/
structure CasAnchorRequestArgs where
  url : String
  node_controller : String
  type : StreamType
  stream_controller : Option String
  unique : Bool
deriving DecidableEq, Repr

/-- CasLoadGenArgs, consumed by src/src/cas.rs load_gen (lines 155-180).
The structure is not defined in this snapshot's cli.rs; its fields are
taken from the uses in cas.rs (url, node_controller, r#type,
stream_controller, count, rate), with u64 modelled as Nat. -/
structure CasLoadGenArgs where
  url : String
  node_controller : String
  type : StreamType
  stream_controller : Option String
  count : Nat
  rate : Option Nat
deriving DecidableEq, Repr

/-- Operation enum of src/src/cas.rs lines 27-30. -/
inductive Operation
  | AnchorRequest (args : CasAnchorRequestArgs)
  | LoadGen (args : CasLoadGenArgs)
deriving DecidableEq, Repr

/-- TryFrom<Command> for cas::Operation (src/src/cas.rs lines 32-42),
embedded against this snapshot's Command enum: the two arms match
Command::CasAnchorRequest and Command::CasLoadGen, constructors that the
cli.rs Command enum does not declare, so on every value of the actual
Command type only the catch-all Err arm applies. -/
def tryFrom : Command → Except Command Operation :=
  fun value => Except.error value

end Cas

/-- The outcome of the run dispatcher (src/src/lib.rs lines 21-92): which
category handler receives the command, or the fallback error
"failed to match command". The cas constructor stands for the handler
implemented in src/src/cas.rs; run never selects it because lib.rs
neither declares mod cas nor tries cas::Operation::try_from. -/
inductive Dispatch
  | completion
  | multibase (op : Multibase.Operation)
  | ipld (op : Ipld.Operation)
  | ceramic (op : Ceramic.Operation)
  | multihash (op : Multihash.Operation)
  | p2p (op : P2p.Operation)
  | parquet (op : Parquet.Operation)
  | cas (op : Cas.Operation)
  | noMatch
deriving DecidableEq, Repr

/-- The run function's dispatch structure (src/src/lib.rs lines 21-92):
Completion is handled first; then each category's TryFrom<Command> is
tried in order (multibase, ipld, ceramic, multihash, p2p, parquet); if
none matches, run returns Err("failed to match command"), modelled as
Dispatch.noMatch. -/
def run_dispatch (cmd : Command) : Dispatch :=
  match cmd with
  | Command.Completion _ => Dispatch.completion
  | cmd =>
    match Multibase.tryFrom cmd with
    | Except.ok op => Dispatch.multibase op
    | Except.error cmd =>
      match Ipld.tryFrom cmd with
      | Except.ok op => Dispatch.ipld op
      | Except.error cmd =>
        match Ceramic.tryFrom cmd with
        | Except.ok op => Dispatch.ceramic op
        | Except.error cmd =>
          match Multihash.tryFrom cmd with
          | Except.ok op => Dispatch.multihash op
          | Except.error cmd =>
            match P2p.tryFrom cmd with
            | Except.ok op => Dispatch.p2p op
            | Except.error cmd =>
              match Parquet.tryFrom cmd with
              | Except.ok op => Dispatch.parquet op
              | Except.error _ => Dispatch.noMatch

/-- C1: the claim states that the fallback error "failed to match command"
at the end of run is unreachable for any command the CLI can parse. This
theorem evaluates run_dispatch at six commands the CLI grammar of
src/src/cli.rs declares (StreamIdFromBytes, EventIdInspect, EventInspect,
InterestInspect, CidAsBytes, CarToBlocks) and shows each reaches the
fallback: no category TryFrom matches them, because ceramic.rs and
ipld.rs are out of sync with cli.rs in this snapshot. -/
theorem C1_fallback_reachable_eval :
    run_dispatch Command.StreamIdFromBytes = Dispatch.noMatch ∧
    run_dispatch (Command.EventIdInspect ⟨"00"⟩) = Dispatch.noMatch ∧
    run_dispatch Command.EventInspect = Dispatch.noMatch ∧
    run_dispatch (Command.InterestInspect ⟨"00"⟩) = Dispatch.noMatch ∧
    run_dispatch (Command.CidAsBytes ⟨"b"⟩) = Dispatch.noMatch ∧
    run_dispatch (Command.CarToBlocks ⟨"."⟩) = Dispatch.noMatch := by
  refine ⟨rfl, rfl, rfl, rfl, rfl, rfl⟩

/-- C2: the claim states that some CLI command value makes run invoke the
cas module's anchor_request operation. This theorem shows the opposite
holds on this snapshot: for every value of the Command enum declared in
src/src/cli.rs, run never dispatches to the cas handler of
src/src/cas.rs (lib.rs does not declare mod cas and its run function has
no cas dispatch arm; cli.rs declares no CasAnchorRequest or CasLoadGen
variant, so cas::Operation::try_from could match no command either). -/
theorem C2_no_command_reaches_cas :
    ∀ (c : Command) (op : Cas.Operation), run_dispatch c ≠ Dispatch.cas op := by
  intro c op
  cases c <;> simp [run_dispatch, Multibase.tryFrom, Ipld.tryFrom,
    Ceramic.tryFrom, Multihash.tryFrom, P2p.tryFrom, Parquet.tryFrom]

/-! ## Anchor-request load generator (src/src/cas.rs lines 155-196) -/

namespace Cas

/-- Per-element sleep deadline of throttled_stream (src/src/cas.rs line
188-191) in nanoseconds after start: the closure computes
start + interval * (i as u32) with interval = Duration::from_nanos
(1_000_000_000 / rate); the cast i as u32 truncates the u64 index modulo
2^32, and u64 division floors. -/
def delay_nanos (rate i : Nat) : Nat :=
  (1000000000 / rate) * (i % 2 ^ 32)

/-- throttled_stream (src/src/cas.rs lines 182-196): the list of sleep
deadlines (nanoseconds after start) of the futures the stream yields, in
order. With Some(rate) the source evaluates 1_000_000_000_u64 / rate,
which panics when rate = 0; the panic is modelled as none. With None it
yields sleep(Duration::from_secs(0)), ready immediately (deadline 0). -/
def throttled_stream (count : Nat) (rate : Option Nat) : Option (List Nat) :=
  match rate with
  | some rate =>
    if rate = 0 then none
    else some ((List.range count).map (fun i => delay_nanos rate i))
  | none => some ((List.range count).map (fun _ => 0))

/-- Outcome of one load_gen call: normal completion after `attempts`
anchor requests, a panic from unwrapping a failed anchor request after
`attempts` requests (the failed one included), or a division-by-zero
panic inside throttled_stream. -/
inductive LoadGenOutcome
  | ok (attempts : Nat)
  | panicked (attempts : Nat)
  | divPanic
deriving DecidableEq, Repr

/-- Number of anchor requests performed before the outcome. -/
def LoadGenOutcome.attempts : LoadGenOutcome → Nat
  | LoadGenOutcome.ok n => n
  | LoadGenOutcome.panicked n => n
  | LoadGenOutcome.divPanic => 0

/-- The body of load_gen's for_each_concurrent loop (src/src/cas.rs lines
168-177) folded over the yielded elements: for each element one
anchor_request is issued; req i tells whether the request issued for
element i succeeds; .unwrap() on a failed request panics, aborting the
loop with that request counted. -/
def runRequests (req : Nat → Bool) : List Nat → Nat → LoadGenOutcome
  | [], n => LoadGenOutcome.ok n
  | i :: rest, n =>
    if req i then runRequests req rest (n + 1) else LoadGenOutcome.panicked (n + 1)

/-- load_gen (src/src/cas.rs lines 155-180): returns Ok(()) immediately
when count == 0 or rate == Some(0); otherwise drives throttled_stream and
issues one anchor request per yielded element. req is the success oracle
for the i-th issued request. -/
def load_gen (req : Nat → Bool) (args : CasLoadGenArgs) : LoadGenOutcome :=
  if args.count = 0 ∨ args.rate = some 0 then LoadGenOutcome.ok 0
  else
    match throttled_stream args.count args.rate with
    | none => LoadGenOutcome.divPanic
    | some elems => runRequests req (List.range elems.length) 0

theorem throttled_stream_length (count : Nat) (rate : Option Nat)
    (h : rate ≠ some 0) :
    ∃ elems, throttled_stream count rate = some elems ∧ elems.length = count := by
  match rate with
  | none => exact ⟨_, rfl, by simp⟩
  | some r =>
    have hr : r ≠ 0 := by intro h0; exact h (by simp [h0])
    exact ⟨(List.range count).map (fun i => delay_nanos r i),
      by simp [throttled_stream, hr], by simp⟩

theorem runRequests_attempts_le (req : Nat → Bool) :
    ∀ (l : List Nat) (n : Nat),
      (runRequests req l n).attempts ≤ n + l.length := by
  intro l
  induction l with
  | nil => intro n; simp [runRequests, LoadGenOutcome.attempts]
  | cons i rest ih =>
    intro n
    by_cases h : req i
    · have := ih (n + 1)
      simpa [runRequests, h, Nat.add_comm, Nat.add_assoc, Nat.add_left_comm] using this
    · simp [runRequests, h, LoadGenOutcome.attempts]

theorem runRequests_all_ok (req : Nat → Bool)
    (hreq : ∀ i, req i = true) :
    ∀ (l : List Nat) (n : Nat), runRequests req l n = LoadGenOutcome.ok (n + l.length) := by
  intro l
  induction l with
  | nil => intro n; simp [runRequests]
  | cons i rest ih =>
    intro n
    have := ih (n + 1)
    simp [runRequests, hreq i, this, Nat.add_comm, Nat.add_assoc, Nat.add_left_comm]

theorem runRequests_first_failure (req : Nat → Bool) :
    ∀ (l1 : List Nat) (k : Nat) (l2 : List Nat) (n : Nat),
      (∀ j ∈ l1, req j = true) → req k = false →
      runRequests req (l1 ++ k :: l2) n = LoadGenOutcome.panicked (n + l1.length + 1) := by
  intro l1
  induction l1 with
  | nil =>
    intro k l2 n _ hk
    simp [runRequests, hk]
  | cons j rest ih =>
    intro k l2 n h1 hk
    have hj : req j = true := h1 j (by simp)
    have := ih k l2 (n + 1) (fun x hx => h1 x (by simp [hx])) hk
    simp [runRequests, hj, this]
    omega

theorem runRequests_ne_divPanic (req : Nat → Bool) :
    ∀ (l : List Nat) (n : Nat), runRequests req l n ≠ LoadGenOutcome.divPanic := by
  intro l
  induction l with
  | nil => intro n; simp [runRequests]
  | cons i rest ih =>
    intro n
    by_cases h : req i <;> simp [runRequests, h, ih]

/-- C3: a failed anchor request inside the load-generation loop is never
retried and triggers no recovery. For every success oracle and argument
record, the total number of anchor-request attempts made by one load_gen
call never exceeds args.count; and if the request for element k is the
first to fail (all earlier ones succeed), load_gen aborts by panic (the
result of anchor_request is unwrapped) after exactly k + 1 attempts: the
failed request is not reissued and no element beyond k is processed. -/
theorem C3_load_gen_no_retry_abort (req : Nat → Bool) (args : CasLoadGenArgs) :
    (load_gen req args).attempts ≤ args.count ∧
    (∀ k, k < args.count → req k = false → (∀ j, j < k → req j = true) →
      args.count ≠ 0 → args.rate ≠ some 0 →
      load_gen req args = LoadGenOutcome.panicked (k + 1)) := by
  constructor
  · by_cases h : args.count = 0 ∨ args.rate = some 0
    · simp [load_gen, h, LoadGenOutcome.attempts]
    · have h2 : args.rate ≠ some 0 := fun hh => h (Or.inr hh)
      obtain ⟨elems, he, hlen⟩ := throttled_stream_length args.count args.rate h2
      have hl : load_gen req args = runRequests req (List.range elems.length) 0 := by
        simp [load_gen, h, he]
      rw [hl, hlen]
      simpa using runRequests_attempts_le req (List.range args.count) 0
  · intro k hk hfail hbefore hc hr
    obtain ⟨elems, he, hlen⟩ := throttled_stream_length args.count args.rate hr
    have hsplit : List.range elems.length =
        List.range k ++ k :: ((List.range (elems.length - (k + 1))).map (fun j => k + 1 + j)) := by
      rw [hlen]
      have h1 : args.count = k + 1 + (args.count - (k + 1)) := by omega
      calc List.range args.count
          = List.range (k + 1 + (args.count - (k + 1))) := by rw [← h1]
        _ = List.range (k + 1) ++
              (List.range (args.count - (k + 1))).map (fun j => k + 1 + j) := by
              rw [List.range_add]
        _ = List.range k ++ k :: ((List.range (args.count - (k + 1))).map (fun j => k + 1 + j)) := by
              rw [List.range_succ]; simp
    have hrun := runRequests_first_failure req (List.range k) k
      ((List.range (elems.length - (k + 1))).map (fun j => k + 1 + j)) 0
      (fun j hj => hbefore j (List.mem_range.mp hj)) hfail
    have : load_gen req args = runRequests req (List.range elems.length) 0 := by
      simp [load_gen, he, hc, hr]
    rw [this, hsplit, hrun]
    simp

/-- Witness for C3: with the oracle that fails exactly on odd indices,
count 3 and no rate limit, the first failure is at element 1 and load_gen
panics after 2 attempts, within the bound of 3. -/
theorem C3_load_gen_no_retry_abort_witness :
    (1 < 3 ∧ (fun i => decide (i % 2 = 0)) 1 = false) ∧
    (load_gen (fun i => decide (i % 2 = 0))
        ⟨"u", "n", StreamType.Model, none, 3, none⟩).attempts ≤ 3 ∧
    load_gen (fun i => decide (i % 2 = 0))
        ⟨"u", "n", StreamType.Model, none, 3, none⟩ = LoadGenOutcome.panicked 2 := by
  refine ⟨⟨by decide, by decide⟩, ?_, ?_⟩
  · exact (C3_load_gen_no_retry_abort (fun i => decide (i % 2 = 0))
      ⟨"u", "n", StreamType.Model, none, 3, none⟩).1
  · exact (C3_load_gen_no_retry_abort (fun i => decide (i % 2 = 0))
      ⟨"u", "n", StreamType.Model, none, 3, none⟩).2 1 (by decide) (by decide)
      (by intro j hj; interval_cases j <;> decide) (by decide) (by decide)

/-- C4: for every count > 0 with rate not equal to Some(0), the load
generator issues exactly count anchor requests and then completes:
throttled_stream(count, rate) yields exactly count sleep futures, and
load_gen performs exactly one anchor request per yielded element, so when
every request succeeds it returns normally after exactly count
requests. -/
theorem C4_load_gen_exact_count (req : Nat → Bool) (args : CasLoadGenArgs)
    (hc : args.count ≠ 0) (hr : args.rate ≠ some 0)
    (hreq : ∀ i, req i = true) :
    (∃ elems, throttled_stream args.count args.rate = some elems ∧
      elems.length = args.count) ∧
    load_gen req args = LoadGenOutcome.ok args.count := by
  obtain ⟨elems, he, hlen⟩ := throttled_stream_length args.count args.rate hr
  refine ⟨⟨elems, he, hlen⟩, ?_⟩
  have : load_gen req args = runRequests req (List.range elems.length) 0 := by
    simp [load_gen, he, hc, hr]
  rw [this, runRequests_all_ok req hreq]
  simp [hlen]

/-- Witness for C4: count 3 at rate 2 with an always-succeeding oracle:
the stream yields 3 elements and load_gen completes after exactly 3
requests. -/
theorem C4_load_gen_exact_count_witness :
    ((3 : Nat) ≠ 0 ∧ (some 2 : Option Nat) ≠ some 0) ∧
    (∃ elems, throttled_stream 3 (some 2) = some elems ∧ elems.length = 3) ∧
    load_gen (fun _ => true) ⟨"u", "n", StreamType.Model, none, 3, some 2⟩ =
      LoadGenOutcome.ok 3 := by
  refine ⟨⟨by decide, by decide⟩, ?_⟩
  exact C4_load_gen_exact_count (fun _ => true)
    ⟨"u", "n", StreamType.Model, none, 3, some 2⟩
    (by decide) (by decide) (fun i => rfl)

/-- C5 counterexample: the claim says that for every i < count the i-th
element is scheduled no earlier than start + i * floor(1e9 / r)
nanoseconds. With rate 1 and count = 2^32 + 1 the element i = 2^32 is in
range, but the source computes interval * (i as u32), truncating the
index to 32 bits, so its deadline delay_nanos 1 (2^32) is 0 nanoseconds,
strictly earlier than i * floor(1e9 / 1) = 2^32 * 1e9. -/
theorem C5_delay_truncation_counterexample :
    2 ^ 32 < 2 ^ 32 + 1 ∧
    delay_nanos 1 (2 ^ 32) < 2 ^ 32 * (1000000000 / 1) := by
  constructor
  · exact Nat.lt_succ_self _
  · show (1000000000 / 1) * (2 ^ 32 % 2 ^ 32) < 2 ^ 32 * (1000000000 / 1)
    rw [Nat.mod_self]
    simp

/-- C5 amended: when a rate r > 0 is supplied, throttled_stream schedules
the i-th element (0-based, for every i < count) to become ready at
start + (i mod 2^32) * floor(1e9 / r) nanoseconds after the stream is
constructed (the index is truncated to 32 bits by the cast i as u32
before the multiplication); in particular for every i < 2^32 this equals
start + i * floor(1e9 / r), so requests are dispatched at approximately r
per second; when rate is None every element is ready immediately. -/
theorem C5_throttle_schedule_amended (count r i : Nat)
    (hi : i < count) (hr : r ≠ 0) :
    (throttled_stream count (some r)).map (fun elems => elems[i]?) =
      some (some (delay_nanos r i)) ∧
    delay_nanos r i = (1000000000 / r) * (i % 2 ^ 32) ∧
    (i < 2 ^ 32 → delay_nanos r i = i * (1000000000 / r)) ∧
    (throttled_stream count none).map (fun elems => elems[i]?) =
      some (some 0) := by
  refine ⟨?_, rfl, ?_, ?_⟩
  · rw [show throttled_stream count (some r) =
        some ((List.range count).map (fun i => delay_nanos r i)) from by
      simp [throttled_stream, hr]]
    show some (((List.range count).map (fun i => delay_nanos r i))[i]?) =
      some (some (delay_nanos r i))
    rw [List.getElem?_map, List.getElem?_range hi]
    rfl
  · intro h32
    show (1000000000 / r) * (i % 2 ^ 32) = i * (1000000000 / r)
    rw [Nat.mod_eq_of_lt h32, Nat.mul_comm]
  · show some (((List.range count).map (fun _ => 0))[i]?) = some (some 0)
    rw [List.getElem?_map, List.getElem?_range hi]
    rfl

/-- Witness for C5 amended: count 3, rate 2, element 1: the deadline is
1 * floor(1e9 / 2) = 500000000 nanoseconds after start. -/
theorem C5_throttle_schedule_amended_witness :
    (1 < 3 ∧ (2 : Nat) ≠ 0) ∧
    ((throttled_stream 3 (some 2)).map (fun elems => elems[1]?) =
        some (some (delay_nanos 2 1)) ∧
      delay_nanos 2 1 = (1000000000 / 2) * (1 % 2 ^ 32) ∧
      (1 < 2 ^ 32 → delay_nanos 2 1 = 1 * (1000000000 / 2)) ∧
      (throttled_stream 3 none).map (fun elems => elems[1]?) =
        some (some 0)) := by
  exact ⟨⟨by decide, by decide⟩,
    C5_throttle_schedule_amended 3 2 1 (by decide) (by decide)⟩

/-- C7: if count == 0 or rate == Some(0), load_gen returns Ok(())
immediately without issuing any anchor request; and on no path reachable
from load_gen is the integer division 1_000_000_000 / rate inside
throttled_stream evaluated with a zero divisor (the division-by-zero
panic outcome is unreachable). -/
theorem C7_load_gen_guard_no_div_zero (req : Nat → Bool) (args : CasLoadGenArgs) :
    ((args.count = 0 ∨ args.rate = some 0) →
      load_gen req args = LoadGenOutcome.ok 0) ∧
    load_gen req args ≠ LoadGenOutcome.divPanic := by
  constructor
  · intro h
    simp [load_gen, h]
  · by_cases h : args.count = 0 ∨ args.rate = some 0
    · simp [load_gen, h]
    · push_neg at h
      obtain ⟨elems, he, _⟩ := throttled_stream_length args.count args.rate h.2
      have : load_gen req args = runRequests req (List.range elems.length) 0 := by
        simp [load_gen, he, h.1, h.2]
      rw [this]
      exact runRequests_ne_divPanic req _ 0

/-- Witness for C7: with count 0 the guard fires: load_gen returns Ok
after zero requests, and the division-by-zero panic does not occur. -/
theorem C7_load_gen_guard_no_div_zero_witness :
    ((0 : Nat) = 0 ∨ (some 5 : Option Nat) = some 0) ∧
    load_gen (fun _ => true) ⟨"u", "n", StreamType.Model, none, 0, some 5⟩ =
      LoadGenOutcome.ok 0 ∧
    load_gen (fun _ => true) ⟨"u", "n", StreamType.Model, none, 0, some 5⟩ ≠
      LoadGenOutcome.divPanic := by
  refine ⟨Or.inl rfl, ?_, ?_⟩
  · exact (C7_load_gen_guard_no_div_zero (fun _ => true)
      ⟨"u", "n", StreamType.Model, none, 0, some 5⟩).1 (Or.inl rfl)
  · exact (C7_load_gen_guard_no_div_zero (fun _ => true)
      ⟨"u", "n", StreamType.Model, none, 0, some 5⟩).2

end Cas

/-! ## stream_tip_car (src/src/ceramic.rs lines 343-372, identical copy in
src/src/cas.rs lines 87-116) -/

namespace Ceramic

/-- The root block of the stream-tip CAR, as built by the ipld! macro at
src/src/ceramic.rs lines 351-355: a map with keys "timestamp" (the
RFC3339 clock reading), "streamId" (the stream id's byte serialization,
stream_id.to_vec()) and "tip". Note that the source sets "tip" to
genesis_cid, not to the tip_cid argument. -/
structure RootBlock where
  timestamp : String
  streamId : List Nat
  tip : Cid
deriving DecidableEq, Repr

/-- A CAR archive at block granularity: the v1 header roots followed by
the (cid, data) blocks in the order the CarWriter wrote them. -/
structure CarArchive where
  roots : List Cid
  blocks : List (Cid × List Nat)
deriving DecidableEq, Repr

/-- The multicodec code of DAG-CBOR (IpldCodec::DagCbor). -/
def dagCborCode : Nat := 0x71

/-- Cid::new_v1 over a DAG-CBOR payload: version 1, DAG-CBOR codec, and
the given multihash digest bytes. -/
def cidNewV1DagCbor (digest : List Nat) : Cid :=
  { version := 1, codec := dagCborCode, hash := digest }

/-- stream_tip_car (src/src/ceramic.rs lines 343-372): builds the root
block map (with "tip" set to genesis_cid), DAG-CBOR encodes it, derives
the root CID from the SHA2-256 digest of those bytes, and writes three
blocks into a CAR archive rooted at the root CID: the root block, the
genesis block, and the tip block. The DAG-CBOR encoder and the SHA2-256
digest are passed as parameters (enc, sha256); Utc::now().to_rfc3339()
is passed as the timestamp parameter. -/
def stream_tip_car (enc : RootBlock → List Nat) (sha256 : List Nat → List Nat)
    (timestamp : String) (stream_id_bytes : List Nat)
    (genesis_cid : Cid) (genesis_block : List Nat)
    (tip_cid : Cid) (tip_block : List Nat) : Cid × CarArchive :=
  let root_block : RootBlock :=
    { timestamp := timestamp, streamId := stream_id_bytes, tip := genesis_cid }
  let ipld_bytes := enc root_block
  let root_cid := cidNewV1DagCbor (sha256 ipld_bytes)
  (root_cid,
   { roots := [root_cid],
     blocks := [(root_cid, ipld_bytes), (genesis_cid, genesis_block),
                (tip_cid, tip_block)] })

/-- C6: in stream_tip_car the root block's "tip" field is set to
genesis_cid, not tip_cid: for any DAG-CBOR encoder, hash function, and
fixed stream id bytes, genesis data and timestamp, the encoded root block
bytes, the returned root CID, the CAR header roots and the first two CAR
blocks are all unchanged under any variation of the tip_cid and tip_block
arguments; the tip arguments only appear as the third block appended to
the CAR archive. -/
theorem C6_stream_tip_car_tip_frame
    (enc : RootBlock → List Nat) (sha256 : List Nat → List Nat)
    (timestamp : String) (stream_id_bytes : List Nat)
    (genesis_cid : Cid) (genesis_block : List Nat)
    (tip_cid tip_cid2 : Cid) (tip_block tip_block2 : List Nat) :
    (stream_tip_car enc sha256 timestamp stream_id_bytes genesis_cid
        genesis_block tip_cid tip_block).1 =
      (stream_tip_car enc sha256 timestamp stream_id_bytes genesis_cid
        genesis_block tip_cid2 tip_block2).1 ∧
    (stream_tip_car enc sha256 timestamp stream_id_bytes genesis_cid
        genesis_block tip_cid tip_block).2.roots =
      (stream_tip_car enc sha256 timestamp stream_id_bytes genesis_cid
        genesis_block tip_cid2 tip_block2).2.roots ∧
    (stream_tip_car enc sha256 timestamp stream_id_bytes genesis_cid
        genesis_block tip_cid tip_block).2.blocks.take 2 =
      (stream_tip_car enc sha256 timestamp stream_id_bytes genesis_cid
        genesis_block tip_cid2 tip_block2).2.blocks.take 2 ∧
    (stream_tip_car enc sha256 timestamp stream_id_bytes genesis_cid
        genesis_block tip_cid tip_block).2.blocks.drop 2 =
      [(tip_cid, tip_block)] ∧
    (stream_tip_car enc sha256 timestamp stream_id_bytes genesis_cid
        genesis_block tip_cid tip_block).2.blocks.take 2 =
      [(cidNewV1DagCbor (sha256 (enc
          { timestamp := timestamp, streamId := stream_id_bytes,
            tip := genesis_cid })),
        enc { timestamp := timestamp, streamId := stream_id_bytes,
              tip := genesis_cid }),
       (genesis_cid, genesis_block)] :=
  ⟨rfl, rfl, rfl, rfl, rfl⟩

end Ceramic

/-! ## P2pPing event loop (src/src/p2p.rs lines 36-86) -/

namespace P2p

/-- The swarm events the ping event loop discriminates on: an outgoing
connection error, a ping behaviour event with an Ok or Err result, or
anything else (ignored by the catch-all arm). -/
inductive PingEvent
  | outgoingConnError (msg : String)
  | pingOk (peer : String) (duration : Nat)
  | pingErr (msg : String)
  | other
deriving DecidableEq, Repr

/-- A line the ping loop writes to stdout. -/
inductive PingOutput
  | connFailed (msg : String)
  | response (peer : String) (duration : Nat)
  | pingFailed (msg : String)
deriving DecidableEq, Repr

/-- Whether an output line is a ping response line. -/
def PingOutput.isResponse : PingOutput → Bool
  | PingOutput.response _ _ => true
  | _ => false

/-- The ping event loop (src/src/p2p.rs lines 50-85) run over a finite
prefix of the swarm event stream, with the mutable counter passed
explicitly (it starts at 0 at line 50): an OutgoingConnectionError prints
a failure line and breaks; a ping event with Ok prints a response line,
increments the counter and breaks once it reaches args.count; a ping
event with Err prints a failure line and breaks (before the counter
increment); other events are ignored. Returns the stdout lines written. -/
def ping_loop (maxCount : Nat) : List PingEvent → Nat → List PingOutput
  | [], _ => []
  | PingEvent.outgoingConnError msg :: _, _ => [PingOutput.connFailed msg]
  | PingEvent.pingOk peer dur :: rest, count =>
    if count + 1 ≥ maxCount then [PingOutput.response peer dur]
    else PingOutput.response peer dur :: ping_loop maxCount rest (count + 1)
  | PingEvent.pingErr msg :: _, _ => [PingOutput.pingFailed msg]
  | PingEvent.other :: rest, count => ping_loop maxCount rest count

/-- Number of response lines among the outputs. -/
def countResponses (outs : List PingOutput) : Nat :=
  (outs.filter PingOutput.isResponse).length

/-- C9 counterexample: the claim says the P2pPing operation never prints
more than args.count ping responses. With args.count = 0 (a value the CLI
parses, since count is a plain usize flag) and a single successful ping
event, the loop prints the response line before checking the counter, so
one response is printed, exceeding args.count = 0. -/
theorem C9_ping_count_zero_counterexample :
    ¬ countResponses (ping_loop 0 [PingEvent.pingOk "peer" 5] 0) ≤ 0 := by
  decide

theorem ping_loop_response_bound (maxCount : Nat) :
    ∀ (events : List PingEvent) (count : Nat),
      countResponses (ping_loop maxCount events count) ≤ max (maxCount - count) 1 := by
  intro events
  induction events with
  | nil => intro count; simp [ping_loop, countResponses]
  | cons e rest ih =>
    intro count
    match e with
    | PingEvent.outgoingConnError msg =>
      simp [ping_loop, countResponses, PingOutput.isResponse]
    | PingEvent.pingErr msg =>
      simp [ping_loop, countResponses, PingOutput.isResponse]
    | PingEvent.other =>
      simpa [ping_loop] using ih count
    | PingEvent.pingOk peer dur =>
      by_cases h : count + 1 ≥ maxCount
      · simp [ping_loop, h, countResponses, PingOutput.isResponse]
      · have hb := ih (count + 1)
        have hcons : countResponses (PingOutput.response peer dur ::
            ping_loop maxCount rest (count + 1)) =
            countResponses (ping_loop maxCount rest (count + 1)) + 1 := by
          simp [countResponses, PingOutput.isResponse]
        simp only [ping_loop, if_neg h]
        rw [hcons]
        omega

/-- C9 amended: the P2pPing operation never prints more than
max(args.count, 1) ping responses: for args.count ≥ 1 the event loop
exits once args.count successful ping results have been printed (for
args.count = 0 it exits after printing the first successful result), and
it exits immediately on an outgoing-connection error or on a failed ping
result, printing nothing further. -/
theorem C9_ping_response_bound_amended (maxCount : Nat) (events : List PingEvent) :
    countResponses (ping_loop maxCount events 0) ≤ max maxCount 1 ∧
    (1 ≤ maxCount → countResponses (ping_loop maxCount events 0) ≤ maxCount) ∧
    (∀ msg rest count, ping_loop maxCount (PingEvent.outgoingConnError msg :: rest) count =
      [PingOutput.connFailed msg]) ∧
    (∀ msg rest count, ping_loop maxCount (PingEvent.pingErr msg :: rest) count =
      [PingOutput.pingFailed msg]) := by
  refine ⟨?_, ?_, fun msg rest count => rfl, fun msg rest count => rfl⟩
  · simpa using ping_loop_response_bound maxCount events 0
  · intro h1
    have := ping_loop_response_bound maxCount events 0
    omega

/-- Witness for C9 amended: with args.count = 2 and three successful ping
events, at most 2 responses are printed. -/
theorem C9_ping_response_bound_amended_witness :
    1 ≤ 2 ∧
    countResponses (ping_loop 2
      [PingEvent.pingOk "p" 1, PingEvent.pingOk "p" 2, PingEvent.pingOk "p" 3] 0) ≤ 2 := by
  exact ⟨by decide, (C9_ping_response_bound_amended 2
    [PingEvent.pingOk "p" 1, PingEvent.pingOk "p" 2, PingEvent.pingOk "p" 3]).2.1
    (by decide)⟩

end P2p

/-! ## Multibase encoding/decoding (the multibase crate operations called
from src/src/multibase.rs)

The multibase crate encodes bytes in two families of algorithms:

* bit-oriented bases (base2, base8, base16, base32 variants, base64
  variants): RFC 4648 without padding; the byte stream is read as a bit
  stream most-significant-bit first, split into k-bit groups (the last
  group zero-padded on the right), and each group indexes the alphabet.
  Decoding maps each character back to its k-bit value, concatenates,
  and keeps the whole bytes.
* big-integer bases (base10, base36, base58 variants): the base-x
  algorithm; each leading zero byte becomes one leading zero-digit
  character, and the remaining bytes are converted as a big-endian
  big integer to digits in the target base.

Both directions are embedded executably below and the encode/decode
round trip is proved. -/

namespace Multibase

/-- Little-endian bit expansion of a natural number, w bits wide. -/
def toBitsLE : Nat → Nat → List Bool
  | 0, _ => []
  | w + 1, n => decide (n % 2 = 1) :: toBitsLE w (n / 2)

/-- Value of a little-endian bit list. -/
def fromBitsLE : List Bool → Nat
  | [] => 0
  | b :: rest => (if b then 1 else 0) + 2 * fromBitsLE rest

/-- Big-endian bit expansion (most significant bit first), w bits wide. -/
def toBitsBE (w n : Nat) : List Bool := (toBitsLE w n).reverse

/-- Value of a big-endian bit list. -/
def fromBitsBE (l : List Bool) : Nat := fromBitsLE l.reverse

theorem length_toBitsLE (w n : Nat) : (toBitsLE w n).length = w := by
  induction w generalizing n with
  | zero => rfl
  | succ w ih => simp [toBitsLE, ih]

theorem length_toBitsBE (w n : Nat) : (toBitsBE w n).length = w := by
  simp [toBitsBE, length_toBitsLE]

theorem mod_two_pow_succ (w n : Nat) :
    n % 2 ^ (w + 1) = 2 * (n / 2 % 2 ^ w) + n % 2 := by
  have h1 : 2 * (n / 2) + n % 2 = n := Nat.div_add_mod n 2
  have h2 : 2 ^ w * (n / 2 / 2 ^ w) + n / 2 % 2 ^ w = n / 2 :=
    Nat.div_add_mod (n / 2) (2 ^ w)
  have hx : n / 2 % 2 ^ w < 2 ^ w :=
    Nat.mod_lt _ (Nat.pos_pow_of_pos w (by norm_num))
  have hr : n % 2 < 2 := Nat.mod_lt _ (by norm_num)
  have hn : n = 2 * (n / 2 % 2 ^ w) + n % 2 + 2 ^ (w + 1) * (n / 2 / 2 ^ w) := by
    conv_lhs => rw [← h1]
    conv_lhs => rw [← h2]
    ring
  calc n % 2 ^ (w + 1)
      = (2 * (n / 2 % 2 ^ w) + n % 2 + 2 ^ (w + 1) * (n / 2 / 2 ^ w)) % 2 ^ (w + 1) := by
        rw [← hn]
    _ = (2 * (n / 2 % 2 ^ w) + n % 2) % 2 ^ (w + 1) :=
        Nat.add_mul_mod_self_left _ _ _
    _ = 2 * (n / 2 % 2 ^ w) + n % 2 := by
        apply Nat.mod_eq_of_lt
        rw [pow_succ]
        omega

theorem fromBitsLE_toBitsLE (w n : Nat) :
    fromBitsLE (toBitsLE w n) = n % 2 ^ w := by
  induction w generalizing n with
  | zero => simp [toBitsLE, fromBitsLE, Nat.mod_one]
  | succ w ih =>
    have hbit : (if decide (n % 2 = 1) then 1 else 0) = n % 2 := by
      rcases Nat.mod_two_eq_zero_or_one n with h | h <;> simp [h]
    rw [toBitsLE, fromBitsLE, hbit, ih, mod_two_pow_succ]
    omega

theorem fromBitsLE_toBitsLE_of_lt {w n : Nat} (h : n < 2 ^ w) :
    fromBitsLE (toBitsLE w n) = n := by
  rw [fromBitsLE_toBitsLE, Nat.mod_eq_of_lt h]

theorem toBitsLE_fromBitsLE (l : List Bool) :
    toBitsLE l.length (fromBitsLE l) = l := by
  induction l with
  | nil => rfl
  | cons b rest ih =>
    have h2 : ((if b then 1 else 0) + 2 * fromBitsLE rest) / 2 = fromBitsLE rest := by
      cases b <;> simp <;> omega
    have h1 : decide (((if b then 1 else 0) + 2 * fromBitsLE rest) % 2 = 1) = b := by
      cases b <;> simp <;> omega
    simp only [List.length_cons, toBitsLE, fromBitsLE, h1, h2, ih]

theorem fromBitsLE_lt (l : List Bool) : fromBitsLE l < 2 ^ l.length := by
  induction l with
  | nil => simp [fromBitsLE]
  | cons b rest ih =>
    simp only [fromBitsLE, List.length_cons, pow_succ]
    cases b <;> simp <;> omega

theorem fromBitsBE_toBitsBE_of_lt {w n : Nat} (h : n < 2 ^ w) :
    fromBitsBE (toBitsBE w n) = n := by
  rw [toBitsBE, fromBitsBE, List.reverse_reverse, fromBitsLE_toBitsLE_of_lt h]

theorem toBitsBE_fromBitsBE (l : List Bool) :
    toBitsBE l.length (fromBitsBE l) = l := by
  rw [toBitsBE, fromBitsBE, ← List.length_reverse l, toBitsLE_fromBitsLE,
    List.reverse_reverse]

theorem fromBitsBE_lt (l : List Bool) : fromBitsBE l < 2 ^ l.length := by
  rw [fromBitsBE, ← List.length_reverse l]
  exact fromBitsLE_lt l.reverse

/-- Fuel-driven chunking of a list into pieces of k elements (the last
piece may be shorter); the fuel argument only serves termination and any
fuel at least the list length gives the same result. -/
def chunkF : Nat → Nat → List α → List (List α)
  | 0, _, _ => []
  | _ + 1, _, [] => []
  | fuel + 1, k, x :: xs => (x :: xs).take k :: chunkF fuel k ((x :: xs).drop k)

/-- Split a list into consecutive pieces of k elements (last piece may be
shorter). -/
def chunk (k : Nat) (l : List α) : List (List α) := chunkF l.length k l

theorem chunkF_nil (fuel k : Nat) : chunkF fuel k ([] : List α) = [] := by
  cases fuel <;> rfl

theorem chunkF_fuel_irrel (k : Nat) (hk : 1 ≤ k) :
    ∀ (fuel1 fuel2 : Nat) (l : List α), l.length ≤ fuel1 → l.length ≤ fuel2 →
      chunkF fuel1 k l = chunkF fuel2 k l := by
  intro fuel1
  induction fuel1 with
  | zero =>
    intro fuel2 l h1 _
    have : l = [] := List.length_eq_zero.mp (Nat.le_zero.mp h1)
    subst this
    rw [chunkF_nil, chunkF_nil]
  | succ fuel ih =>
    intro fuel2 l h1 h2
    match l with
    | [] => rw [chunkF_nil, chunkF_nil]
    | x :: xs =>
      match fuel2 with
      | 0 => simp at h2
      | fuel2 + 1 =>
        show (x :: xs).take k :: chunkF fuel k ((x :: xs).drop k) =
          (x :: xs).take k :: chunkF fuel2 k ((x :: xs).drop k)
        have hd : ((x :: xs).drop k).length ≤ fuel := by
          simp only [List.length_drop, List.length_cons] at h1 ⊢
          omega
        have hd2 : ((x :: xs).drop k).length ≤ fuel2 := by
          simp only [List.length_drop, List.length_cons] at h2 ⊢
          omega
        rw [ih fuel2 _ hd hd2]

theorem chunk_cons (k : Nat) (hk : 1 ≤ k) (l : List α) (hl : l ≠ []) :
    chunk k l = l.take k :: chunk k (l.drop k) := by
  match l with
  | x :: xs =>
    show chunkF (xs.length + 1) k (x :: xs) = _
    rw [show chunkF (xs.length + 1) k (x :: xs) =
      (x :: xs).take k :: chunkF xs.length k ((x :: xs).drop k) from rfl]
    congr 1
    apply chunkF_fuel_irrel k hk
    · rw [List.length_drop]; simp; omega
    · exact Nat.le_refl _

theorem chunk_mem_length (k : Nat) (hk : 1 ≤ k) :
    ∀ (n : Nat) (l : List α), l.length ≤ n →
      ∀ g ∈ chunk k l, 1 ≤ g.length ∧ g.length ≤ k := by
  intro n
  induction n with
  | zero =>
    intro l h g hg
    have : l = [] := List.length_eq_zero.mp (Nat.le_zero.mp h)
    subst this
    simp [chunk, chunkF_nil] at hg
  | succ n ih =>
    intro l h g hg
    match l with
    | [] => simp [chunk, chunkF_nil] at hg
    | x :: xs =>
      rw [chunk_cons k hk _ (by simp)] at hg
      rcases List.mem_cons.mp hg with h1 | h1
      · subst h1
        constructor
        · rw [List.length_take]
          simp only [List.length_cons]
          omega
        · rw [List.length_take]
          omega
      · apply ih ((x :: xs).drop k) _ g h1
        rw [List.length_drop]
        simp only [List.length_cons] at h ⊢
        omega

/-- Pad a bit group on the right with zero bits up to width k. -/
def padRight (k : Nat) (g : List Bool) : List Bool :=
  g ++ List.replicate (k - g.length) false

theorem padRight_length {k : Nat} {g : List Bool} (h : g.length ≤ k) :
    (padRight k g).length = k := by
  simp [padRight]
  omega

theorem flatten_padRight_chunk (k : Nat) (hk : 1 ≤ k) :
    ∀ (n : Nat) (l : List Bool), l.length ≤ n →
      ((chunk k l).map (padRight k)).flatten =
        l ++ List.replicate ((k - l.length % k) % k) false := by
  intro n
  induction n with
  | zero =>
    intro l h
    have : l = [] := List.length_eq_zero.mp (Nat.le_zero.mp h)
    subst this
    simp [chunk, chunkF_nil]
  | succ n ih =>
    intro l h
    match l with
    | [] => simp [chunk, chunkF_nil]
    | x :: xs =>
      rw [chunk_cons k hk _ (by simp), List.map_cons, List.flatten_cons]
      by_cases hlen : (x :: xs).length ≤ k
      · have hdrop : (x :: xs).drop k = [] := by
          apply List.drop_eq_nil_of_le
          exact hlen
        rw [hdrop]
        simp only [chunk, chunkF_nil, List.map_nil, List.flatten_nil,
          List.append_nil]
        rw [List.take_of_length_le hlen]
        unfold padRight
        congr 1
        have hpos : 0 < (x :: xs).length := by simp
        rcases Nat.eq_or_lt_of_le hlen with heq | hlt
        · rw [heq]
          simp
        · rw [Nat.mod_eq_of_lt hlt, Nat.mod_eq_of_lt (by omega)]
      · push_neg at hlen
        have htake : ((x :: xs).take k).length = k := by
          rw [List.length_take]
          omega
        have hpad : padRight k ((x :: xs).take k) = (x :: xs).take k := by
          unfold padRight
          rw [htake]
          simp
        have hrec := ih ((x :: xs).drop k) (by
          rw [List.length_drop]
          simp only [List.length_cons] at h ⊢
          omega)
        rw [hpad, hrec, ← List.append_assoc, List.take_append_drop]
        congr 2
        rw [List.length_drop]
        conv_rhs => rw [show (x :: xs).length = ((x :: xs).length - k) + k by omega]
        rw [Nat.add_mod_right]

theorem chunk_flatMap_bytes :
    ∀ (data : List Nat), (∀ x ∈ data, x < 256) →
      (chunk 8 (data.flatMap (fun byte => toBitsBE 8 byte))).map fromBitsBE = data := by
  intro data
  induction data with
  | nil => intro _; simp [chunk, chunkF_nil]
  | cons d rest ih =>
    intro hd
    have hdlt : d < 256 := hd d (by simp)
    have hbits : (d :: rest).flatMap (fun byte => toBitsBE 8 byte) =
        toBitsBE 8 d ++ rest.flatMap (fun byte => toBitsBE 8 byte) := rfl
    have hne : toBitsBE 8 d ++ rest.flatMap (fun byte => toBitsBE 8 byte) ≠ [] := by
      intro hcon
      have := congrArg List.length hcon
      simp [length_toBitsBE] at this
    rw [hbits, chunk_cons 8 (by norm_num) _ hne]
    have hlen8 : (toBitsBE 8 d).length = 8 := length_toBitsBE 8 d
    have htake : (toBitsBE 8 d ++ rest.flatMap (fun byte => toBitsBE 8 byte)).take 8 =
        toBitsBE 8 d := by
      rw [← hlen8]
      exact List.take_left _ _
    have hdrop : (toBitsBE 8 d ++ rest.flatMap (fun byte => toBitsBE 8 byte)).drop 8 =
        rest.flatMap (fun byte => toBitsBE 8 byte) := by
      rw [← hlen8]
      exact List.drop_left _ _
    rw [htake, hdrop, List.map_cons,
      fromBitsBE_toBitsBE_of_lt (by norm_num at hdlt ⊢; exact hdlt),
      ih (fun x hx => hd x (by simp [hx]))]

/-- Bit-oriented encoding (RFC 4648 style, no padding characters): the
byte stream is read most-significant-bit first, split into k-bit groups
(the final partial group zero-padded on the right), and each group's
value indexes the alphabet. -/
def encodeBits (k : Nat) (alphabet : List Char) (data : List Nat) : List Char :=
  (chunk k (data.flatMap (fun byte => toBitsBE 8 byte))).map
    (fun g => alphabet.getD (fromBitsBE (padRight k g)) ' ')

/-- Bit-oriented decoding (RFC 4648 style, no padding characters): every
character must belong to the alphabet (otherwise the decoder errors,
modelled as none); each character contributes its k-bit value, the bits
are concatenated and only whole bytes are kept. -/
def decodeBits (k : Nat) (alphabet : List Char) (s : List Char) : Option (List Nat) :=
  if s.all (fun c => alphabet.contains c) then
    let bits := s.flatMap (fun c => toBitsBE k (alphabet.indexOf c))
    some ((chunk 8 (bits.take (8 * (bits.length / 8)))).map fromBitsBE)
  else none

theorem getD_mem {l : List Char} {i : Nat} (h : i < l.length) (d : Char) :
    l.getD i d ∈ l := by
  rw [List.getD_eq_getElem l d h]
  exact List.getElem_mem h

theorem length_flatMap_toBitsBE (w : Nat) (data : List Nat) :
    (data.flatMap (fun byte => toBitsBE w byte)).length = w * data.length := by
  induction data with
  | nil => simp
  | cons d rest ih =>
    have : (d :: rest).flatMap (fun byte => toBitsBE w byte) =
        toBitsBE w d ++ rest.flatMap (fun byte => toBitsBE w byte) := rfl
    rw [this, List.length_append, length_toBitsBE, ih, List.length_cons]
    ring

theorem decodeBits_encodeBits (k : Nat) (alphabet : List Char) (data : List Nat)
    (hk1 : 1 ≤ k) (hk8 : k ≤ 8) (hlen : alphabet.length = 2 ^ k)
    (hidx : ∀ v, v < 2 ^ k → alphabet.indexOf (alphabet.getD v ' ') = v)
    (hdata : ∀ x ∈ data, x < 256) :
    decodeBits k alphabet (encodeBits k alphabet data) = some data := by
  have hbits : ∀ g ∈ chunk k (data.flatMap (fun byte => toBitsBE 8 byte)),
      fromBitsBE (padRight k g) < 2 ^ k := by
    intro g hg
    have hgl := chunk_mem_length k hk1
      (data.flatMap (fun byte => toBitsBE 8 byte)).length _ (Nat.le_refl _) g hg
    have := fromBitsBE_lt (padRight k g)
    rwa [padRight_length hgl.2] at this
  -- every encoded character is in the alphabet
  have hmem : ∀ c ∈ encodeBits k alphabet data, c ∈ alphabet := by
    intro c hc
    rcases List.mem_map.mp hc with ⟨g, hg, rfl⟩
    exact getD_mem (by rw [hlen]; exact hbits g hg) _
  have hguard : (encodeBits k alphabet data).all (fun c => alphabet.contains c) = true := by
    rw [List.all_eq_true]
    intro c hc
    exact List.elem_eq_true_of_mem (hmem c hc)
  rw [decodeBits, if_pos hguard]
  -- the decoded bit stream is the encoded bit stream plus right padding
  have hmap : (encodeBits k alphabet data).flatMap
      (fun c => toBitsBE k (alphabet.indexOf c)) =
      ((chunk k (data.flatMap (fun byte => toBitsBE 8 byte))).map (padRight k)).flatten := by
    rw [encodeBits, List.flatMap_def, List.map_map]
    congr 1
    apply List.map_congr_left
    intro g hg
    have hv := hbits g hg
    show toBitsBE k (alphabet.indexOf (alphabet.getD (fromBitsBE (padRight k g)) ' ')) =
      padRight k g
    rw [hidx _ hv]
    have hpl : (padRight k g).length = k :=
      padRight_length (chunk_mem_length k hk1
        (data.flatMap (fun byte => toBitsBE 8 byte)).length _ (Nat.le_refl _) g hg).2
    have hrt := toBitsBE_fromBitsBE (padRight k g)
    rwa [hpl] at hrt
  -- sizes
  have hblen : (data.flatMap (fun byte => toBitsBE 8 byte)).length = 8 * data.length :=
    length_flatMap_toBitsBE 8 data
  set bits := data.flatMap (fun byte => toBitsBE 8 byte) with hbitsdef
  set p := (k - bits.length % k) % k with hpdef
  have heq := flatten_padRight_chunk k hk1 bits.length bits (Nat.le_refl _)
  have hp : p < 8 := by
    have : p < k := Nat.mod_lt _ hk1
    omega
  have hlen2 : (bits ++ List.replicate p false).length = 8 * data.length + p := by
    rw [List.length_append, hblen, List.length_replicate]
  have hdiv : (bits ++ List.replicate p false).length / 8 = data.length := by
    rw [hlen2]
    omega
  have htake : (bits ++ List.replicate p false).take (8 * data.length) = bits := by
    rw [← hblen]
    exact List.take_left _ _
  simp only [hmap, heq, ← hpdef]
  rw [hdiv, htake, chunk_flatMap_bytes data hdata]

/-- Little-endian base-b digit expansion computed by repeated division;
the fuel argument only serves termination and any fuel at least n gives
Nat.digits b n. -/
def toDigitsLEF (b : Nat) : Nat → Nat → List Nat
  | 0, _ => []
  | fuel + 1, n => if n = 0 then [] else n % b :: toDigitsLEF b fuel (n / b)

/-- Big-endian (most significant digit first) base-b digit expansion of a
natural number; empty for 0. -/
def natToDigitsBE (b n : Nat) : List Nat := (toDigitsLEF b (n + 1) n).reverse

theorem toDigitsLEF_eq_digits (b : Nat) (hb : 2 ≤ b) :
    ∀ (fuel n : Nat), n ≤ fuel → toDigitsLEF b fuel n = Nat.digits b n := by
  intro fuel
  induction fuel with
  | zero =>
    intro n hn
    have : n = 0 := Nat.le_zero.mp hn
    subst this
    simp [toDigitsLEF]
  | succ fuel ih =>
    intro n hn
    by_cases h0 : n = 0
    · subst h0; simp [toDigitsLEF]
    · rw [toDigitsLEF, if_neg h0,
        Nat.digits_def' (by omega : 1 < b) (Nat.pos_of_ne_zero h0)]
      congr 1
      apply ih
      have : n / b < n := Nat.div_lt_self (Nat.pos_of_ne_zero h0) (by omega)
      omega

theorem natToDigitsBE_eq (b n : Nat) (hb : 2 ≤ b) :
    natToDigitsBE b n = (Nat.digits b n).reverse := by
  rw [natToDigitsBE, toDigitsLEF_eq_digits b hb (n + 1) n (Nat.le_succ n)]

theorem ofDigits_replicate_zero (b z : Nat) :
    Nat.ofDigits b (List.replicate z 0) = 0 := by
  induction z with
  | zero => rfl
  | succ z ih => simp [List.replicate_succ, Nat.ofDigits_cons, ih]

theorem takeWhile_replicate_of_pos {α : Type} (p : α → Bool) (z : Nat) (a : α)
    (ha : p a = true) :
    (List.replicate z a).takeWhile p = List.replicate z a := by
  induction z with
  | zero => rfl
  | succ z ih => simp [List.replicate_succ, List.takeWhile_cons, ha, ih]

theorem takeWhile_replicate_append {α : Type} (p : α → Bool) (z : Nat) (a : α)
    (x : α) (xs : List α) (ha : p a = true) (hx : p x = false) :
    (List.replicate z a ++ x :: xs).takeWhile p = List.replicate z a := by
  induction z with
  | zero => simp [List.takeWhile_cons, hx]
  | succ z ih => simp [List.replicate_succ, List.takeWhile_cons, ha, ih]

/-- Big-integer encoding (the base-x algorithm used by the multibase
crate for base10, base36 and base58): each leading zero byte becomes one
leading zero-digit character, and the whole byte string, read as a
big-endian big integer, is converted to base-b digits (most significant
first), each indexing the alphabet. -/
def encodeBigInt (b : Nat) (alphabet : List Char) (data : List Nat) : List Char :=
  let zeros := (data.takeWhile (fun x => x == 0)).length
  let n := Nat.ofDigits 256 data.reverse
  List.replicate zeros (alphabet.getD 0 ' ') ++
    (natToDigitsBE b n).map (fun d => alphabet.getD d ' ')

/-- Big-integer decoding: every character must belong to the alphabet
(otherwise the decoder errors, modelled as none); each leading zero-digit
character becomes one zero byte and the remaining characters are read as
big-endian base-b digits of a big integer, converted back to bytes. -/
def decodeBigInt (b : Nat) (alphabet : List Char) (s : List Char) : Option (List Nat) :=
  if s.all (fun c => alphabet.contains c) then
    let zeros := (s.takeWhile (fun c => c == alphabet.getD 0 ' ')).length
    let rest := s.drop zeros
    let n := Nat.ofDigits b ((rest.map (fun c => alphabet.indexOf c)).reverse)
    some (List.replicate zeros 0 ++ natToDigitsBE 256 n)
  else none

theorem getLast_reverse_cons {α : Type} (r0 : α) (rtail : List α)
    (h : (r0 :: rtail).reverse ≠ []) : ((r0 :: rtail).reverse).getLast h = r0 := by
  have h2 : ((r0 :: rtail).reverse).getLast? = some r0 := by
    rw [List.reverse_cons]
    exact List.getLast?_concat _
  rw [List.getLast?_eq_getLast _ h] at h2
  exact Option.some.inj h2

theorem decodeBigInt_encodeBigInt (b : Nat) (alphabet : List Char) (data : List Nat)
    (hb : 2 ≤ b) (hlen : alphabet.length = b)
    (hidx : ∀ v, v < b → alphabet.indexOf (alphabet.getD v ' ') = v)
    (hdata : ∀ x ∈ data, x < 256) :
    decodeBigInt b alphabet (encodeBigInt b alphabet data) = some data := by
  have halen : 0 < alphabet.length := by omega
  have ha0 : alphabet.getD 0 ' ' ∈ alphabet := getD_mem halen ' '
  set a0 := alphabet.getD 0 ' ' with ha0def
  set z := (data.takeWhile (fun x => x == 0)).length with hzdef
  have htw : data.takeWhile (fun x => x == 0) = List.replicate z 0 := by
    rw [hzdef]
    apply List.eq_replicate_of_mem
    intro x hx
    have := List.mem_takeWhile_imp hx
    simpa using this
  have hsplit : data = List.replicate z 0 ++ data.dropWhile (fun x => x == 0) := by
    conv_lhs => rw [← List.takeWhile_append_dropWhile (fun x => x == 0) data]
    rw [htw]
  have hn : Nat.ofDigits 256 data.reverse =
      Nat.ofDigits 256 (data.dropWhile (fun x => x == 0)).reverse := by
    conv_lhs => rw [hsplit]
    rw [List.reverse_append, List.reverse_replicate, Nat.ofDigits_append,
      ofDigits_replicate_zero]
    ring
  have hrest256 : ∀ x ∈ data.dropWhile (fun x => x == 0), x < 256 := by
    intro x hx
    exact hdata x ((List.dropWhile_sublist (fun x => x == 0)).mem hx)
  match hrest : data.dropWhile (fun x => x == 0) with
  | [] =>
    -- all bytes are zero: the big integer is 0 and only zero-digit
    -- characters are emitted
    rw [hrest] at hsplit hn
    have hn0 : Nat.ofDigits 256 data.reverse = 0 := by rw [hn]; rfl
    have henc : encodeBigInt b alphabet data = List.replicate z a0 := by
      rw [encodeBigInt]
      simp only [← hzdef, ← ha0def, hn0]
      rw [natToDigitsBE_eq b 0 hb]
      simp
    rw [henc, decodeBigInt]
    have hguard : (List.replicate z a0).all (fun c => alphabet.contains c) = true := by
      rw [List.all_eq_true]
      intro c hc
      rw [(List.mem_replicate.mp hc).2]
      exact List.elem_eq_true_of_mem ha0
    rw [if_pos hguard]
    have htw2 : (List.replicate z a0).takeWhile (fun c => c == a0) =
        List.replicate z a0 :=
      takeWhile_replicate_of_pos _ z a0 (beq_self_eq_true a0)
    simp only [htw2, List.length_replicate]
    rw [List.drop_replicate]
    simp only [Nat.sub_self, List.replicate_zero, List.map_nil, List.reverse_nil]
    rw [show Nat.ofDigits b [] = 0 from rfl, natToDigitsBE_eq 256 0 (by norm_num)]
    simp only [Nat.digits_zero, List.reverse_nil, List.append_nil]
    rw [hsplit]
    simp
  | r0 :: rtail =>
    rw [hrest] at hsplit hn hrest256
    have hr0 : r0 ≠ 0 := by
      have hd := List.head?_dropWhile_not (fun x => x == 0) data
      rw [hrest] at hd
      simpa using hd
    set n := Nat.ofDigits 256 ((r0 :: rtail).reverse : List Nat) with hndef
    have hlastne : ∀ h : ((r0 :: rtail).reverse : List Nat) ≠ [],
        ((r0 :: rtail).reverse).getLast h ≠ 0 := by
      intro h
      rw [getLast_reverse_cons r0 rtail h]
      exact hr0
    have hdig256 : Nat.digits 256 n = (r0 :: rtail).reverse := by
      rw [hndef]
      apply Nat.digits_ofDigits 256 (by norm_num)
      · intro x hx
        exact hrest256 x (List.mem_reverse.mp hx)
      · exact hlastne
    have hn0 : n ≠ 0 := by
      intro hcon
      rw [hcon] at hdig256
      simp at hdig256
    have hback : natToDigitsBE 256 n = r0 :: rtail := by
      rw [natToDigitsBE_eq 256 n (by norm_num), hdig256, List.reverse_reverse]
    -- the base-b digit string of n
    set digitsB := Nat.digits b n with hdigBdef
    have hBne : digitsB ≠ [] := Nat.digits_ne_nil_iff_ne_zero.mpr hn0
    have hdlt : ∀ d ∈ digitsB, d < b := fun d hd =>
      Nat.digits_lt_base (by omega) hd
    have hmsd0 : digitsB.getLast hBne ≠ 0 := Nat.getLast_digit_ne_zero b hn0
    have hmsdlt : digitsB.getLast hBne < b := hdlt _ (List.getLast_mem hBne)
    have hrevB : digitsB.reverse =
        digitsB.getLast hBne :: digitsB.dropLast.reverse := by
      conv_lhs => rw [← List.dropLast_append_getLast hBne]
      rw [List.reverse_append]
      rfl
    have henc : encodeBigInt b alphabet data =
        List.replicate z a0 ++
          (digitsB.reverse).map (fun d => alphabet.getD d ' ') := by
      rw [encodeBigInt]
      simp only [← hzdef, ← ha0def]
      rw [hn, natToDigitsBE_eq b n hb, ← hdigBdef]
    rw [henc, decodeBigInt]
    have hdigmem : ∀ c ∈ (digitsB.reverse).map (fun d => alphabet.getD d ' '),
        c ∈ alphabet := by
      intro c hc
      rcases List.mem_map.mp hc with ⟨d, hd, rfl⟩
      exact getD_mem (by rw [hlen]; exact hdlt d (List.mem_reverse.mp hd)) ' '
    have hguard : (List.replicate z a0 ++
        (digitsB.reverse).map (fun d => alphabet.getD d ' ')).all
          (fun c => alphabet.contains c) = true := by
      rw [List.all_eq_true]
      intro c hc
      rcases List.mem_append.mp hc with h | h
      · rw [(List.mem_replicate.mp h).2]
        exact List.elem_eq_true_of_mem ha0
      · exact List.elem_eq_true_of_mem (hdigmem c h)
    rw [if_pos hguard]
    have hcmsd : (alphabet.getD (digitsB.getLast hBne) ' ' == a0) = false := by
      rw [beq_eq_false_iff_ne]
      intro hcon
      have h1 := hidx _ hmsdlt
      have h2 := hidx 0 (by omega)
      rw [hcon, ha0def] at h1
      exact hmsd0 (by omega)
    have hmapped : (digitsB.reverse).map (fun d => alphabet.getD d ' ') =
        alphabet.getD (digitsB.getLast hBne) ' ' ::
          (digitsB.dropLast.reverse).map (fun d => alphabet.getD d ' ') := by
      rw [hrevB, List.map_cons]
    have htw3 : (List.replicate z a0 ++
        (digitsB.reverse).map (fun d => alphabet.getD d ' ')).takeWhile
          (fun c => c == a0) = List.replicate z a0 := by
      rw [hmapped]
      exact takeWhile_replicate_append _ z a0 _ _ (beq_self_eq_true a0) hcmsd
    simp only [htw3, List.length_replicate]
    have hdrop : (List.replicate z a0 ++
        (digitsB.reverse).map (fun d => alphabet.getD d ' ')).drop z =
        (digitsB.reverse).map (fun d => alphabet.getD d ' ') := by
      simpa using List.drop_left (List.replicate z a0)
        ((digitsB.reverse).map (fun d => alphabet.getD d ' '))
    rw [hdrop, List.map_map]
    have hroundtrip : (digitsB.reverse).map
        ((fun c => alphabet.indexOf c) ∘ (fun d => alphabet.getD d ' ')) =
        digitsB.reverse := by
      have : ∀ d ∈ digitsB.reverse,
          ((fun c => alphabet.indexOf c) ∘ (fun d => alphabet.getD d ' ')) d = id d := by
        intro d hd
        exact hidx d (hdlt d (List.mem_reverse.mp hd))
      rw [List.map_congr_left this, List.map_id]
    rw [hroundtrip, List.reverse_reverse, hdigBdef, Nat.ofDigits_digits, hback]
    rw [hsplit]

theorem mem_encodeBits (k : Nat) (alphabet : List Char) (data : List Nat)
    (hk1 : 1 ≤ k) (hlen : alphabet.length = 2 ^ k) :
    ∀ c ∈ encodeBits k alphabet data, c ∈ alphabet := by
  intro c hc
  rcases List.mem_map.mp hc with ⟨g, hg, rfl⟩
  have hgl := chunk_mem_length k hk1
    (data.flatMap (fun byte => toBitsBE 8 byte)).length _ (Nat.le_refl _) g hg
  have hv := fromBitsBE_lt (padRight k g)
  rw [padRight_length hgl.2] at hv
  exact getD_mem (by rw [hlen]; exact hv) ' '

theorem mem_encodeBigInt (b : Nat) (alphabet : List Char) (data : List Nat)
    (hb : 2 ≤ b) (hlen : alphabet.length = b) :
    ∀ c ∈ encodeBigInt b alphabet data, c ∈ alphabet := by
  intro c hc
  rw [encodeBigInt] at hc
  rcases List.mem_append.mp hc with h | h
  · rw [(List.mem_replicate.mp h).2]
    exact getD_mem (by omega) ' '
  · rcases List.mem_map.mp h with ⟨d, hd, rfl⟩
    rw [natToDigitsBE_eq b _ hb] at hd
    have : d < b := Nat.digits_lt_base (by omega) (List.mem_reverse.mp hd)
    exact getD_mem (by omega) ' '

/-- Unicode White_Space code points, the set trimmed by Rust's
str::trim_end (char::is_whitespace). -/
def rustWhitespace (c : Char) : Bool :=
  c.toNat = 0x09 || c.toNat = 0x0A || c.toNat = 0x0B || c.toNat = 0x0C ||
  c.toNat = 0x0D || c.toNat = 0x20 || c.toNat = 0x85 || c.toNat = 0xA0 ||
  c.toNat = 0x1680 || (0x2000 ≤ c.toNat && c.toNat ≤ 0x200A) ||
  c.toNat = 0x2028 || c.toNat = 0x2029 || c.toNat = 0x202F ||
  c.toNat = 0x205F || c.toNat = 0x3000

/-- Rust's str::trim_end: remove trailing whitespace characters. -/
def rust_trim_end (s : List Char) : List Char :=
  (s.reverse.dropWhile rustWhitespace).reverse

theorem dropWhile_eq_self_of_all {α : Type} (p : α → Bool) (l : List α)
    (h : ∀ c ∈ l, p c = false) : l.dropWhile p = l := by
  cases l with
  | nil => rfl
  | cons x xs => simp [List.dropWhile_cons, h x (by simp)]

theorem trim_end_eq_self (s : List Char)
    (h : ∀ c ∈ s, rustWhitespace c = false) : rust_trim_end s = s := by
  rw [rust_trim_end, dropWhile_eq_self_of_all rustWhitespace s.reverse
    (fun c hc => h c (List.mem_reverse.mp hc)), List.reverse_reverse]

/-- The multibase Base values used by src/src/multibase.rs run (lines
72-87). -/
inductive Base
  | Base2 | Base8 | Base10 | Base16Lower | Base16Upper
  | Base32HexLower | Base32HexUpper | Base32Lower | Base32Upper | Base32Z
  | Base36Lower | Base36Upper | Base58Flickr | Base58Btc | Base64 | Base64Url
deriving DecidableEq, Repr

/-- Multibase code character prefixed by multibase::encode for each base
(the multibase table, also documented in the doc comments of
src/src/cli.rs lines 26-73). -/
def Base.code : Base → Char
  | Base.Base2 => '0'
  | Base.Base8 => '7'
  | Base.Base10 => '9'
  | Base.Base16Lower => 'f'
  | Base.Base16Upper => 'F'
  | Base.Base32HexLower => 'v'
  | Base.Base32HexUpper => 'V'
  | Base.Base32Lower => 'b'
  | Base.Base32Upper => 'B'
  | Base.Base32Z => 'h'
  | Base.Base36Lower => 'k'
  | Base.Base36Upper => 'K'
  | Base.Base58Flickr => 'Z'
  | Base.Base58Btc => 'z'
  | Base.Base64 => 'm'
  | Base.Base64Url => 'u'

def BASE2_ALPHA : List Char := "01".toList

def BASE8_ALPHA : List Char := "01234567".toList

def BASE10_ALPHA : List Char := "0123456789".toList

def BASE16_LOWER_ALPHA : List Char := "0123456789abcdef".toList

def BASE16_UPPER_ALPHA : List Char := "0123456789ABCDEF".toList

def BASE32_HEX_LOWER_ALPHA : List Char := "0123456789abcdefghijklmnopqrstuv".toList

def BASE32_HEX_UPPER_ALPHA : List Char := "0123456789ABCDEFGHIJKLMNOPQRSTUV".toList

def BASE32_LOWER_ALPHA : List Char := "abcdefghijklmnopqrstuvwxyz234567".toList

def BASE32_UPPER_ALPHA : List Char := "ABCDEFGHIJKLMNOPQRSTUVWXYZ234567".toList

def BASE32_Z_ALPHA : List Char := "ybndrfg8ejkmcpqxot1uwisza345h769".toList

def BASE36_LOWER_ALPHA : List Char := "0123456789abcdefghijklmnopqrstuvwxyz".toList

def BASE36_UPPER_ALPHA : List Char := "0123456789ABCDEFGHIJKLMNOPQRSTUVWXYZ".toList

def BASE58_FLICKR_ALPHA : List Char :=
  "123456789abcdefghijkmnopqrstuvwxyzABCDEFGHJKLMNPQRSTUVWXYZ".toList

def BASE58_BTC_ALPHA : List Char :=
  "123456789ABCDEFGHJKLMNPQRSTUVWXYZabcdefghijkmnopqrstuvwxyz".toList

def BASE64_ALPHA : List Char :=
  "ABCDEFGHIJKLMNOPQRSTUVWXYZabcdefghijklmnopqrstuvwxyz0123456789+/".toList

def BASE64_URL_ALPHA : List Char :=
  "ABCDEFGHIJKLMNOPQRSTUVWXYZabcdefghijklmnopqrstuvwxyz0123456789-_".toList

/-- Alphabet of each base. -/
def Base.alphabet : Base → List Char
  | Base.Base2 => BASE2_ALPHA
  | Base.Base8 => BASE8_ALPHA
  | Base.Base10 => BASE10_ALPHA
  | Base.Base16Lower => BASE16_LOWER_ALPHA
  | Base.Base16Upper => BASE16_UPPER_ALPHA
  | Base.Base32HexLower => BASE32_HEX_LOWER_ALPHA
  | Base.Base32HexUpper => BASE32_HEX_UPPER_ALPHA
  | Base.Base32Lower => BASE32_LOWER_ALPHA
  | Base.Base32Upper => BASE32_UPPER_ALPHA
  | Base.Base32Z => BASE32_Z_ALPHA
  | Base.Base36Lower => BASE36_LOWER_ALPHA
  | Base.Base36Upper => BASE36_UPPER_ALPHA
  | Base.Base58Flickr => BASE58_FLICKR_ALPHA
  | Base.Base58Btc => BASE58_BTC_ALPHA
  | Base.Base64 => BASE64_ALPHA
  | Base.Base64Url => BASE64_URL_ALPHA

/-- Encoding algorithm of each base: bit-oriented with k bits per
character, or big-integer with the given radix. -/
inductive BaseKind
  | bits (k : Nat)
  | bigint (b : Nat)
deriving DecidableEq, Repr

def Base.kind : Base → BaseKind
  | Base.Base2 => BaseKind.bits 1
  | Base.Base8 => BaseKind.bits 3
  | Base.Base10 => BaseKind.bigint 10
  | Base.Base16Lower => BaseKind.bits 4
  | Base.Base16Upper => BaseKind.bits 4
  | Base.Base32HexLower => BaseKind.bits 5
  | Base.Base32HexUpper => BaseKind.bits 5
  | Base.Base32Lower => BaseKind.bits 5
  | Base.Base32Upper => BaseKind.bits 5
  | Base.Base32Z => BaseKind.bits 5
  | Base.Base36Lower => BaseKind.bigint 36
  | Base.Base36Upper => BaseKind.bigint 36
  | Base.Base58Flickr => BaseKind.bigint 58
  | Base.Base58Btc => BaseKind.bigint 58
  | Base.Base64 => BaseKind.bits 6
  | Base.Base64Url => BaseKind.bits 6

/-- The alphabet-encoding part of multibase::encode (no code
character). -/
def baseEncode (base : Base) (data : List Nat) : List Char :=
  match base.kind with
  | BaseKind.bits k => encodeBits k base.alphabet data
  | BaseKind.bigint b => encodeBigInt b base.alphabet data

/-- The alphabet-decoding part of multibase::decode (after the code
character has been stripped). -/
def baseDecode (base : Base) (s : List Char) : Option (List Nat) :=
  match base.kind with
  | BaseKind.bits k => decodeBits k base.alphabet s
  | BaseKind.bigint b => decodeBigInt b base.alphabet s

/-- multibase::encode: the base's code character followed by the
alphabet encoding of the bytes. -/
def multibase_encode (base : Base) (data : List Nat) : List Char :=
  base.code :: baseEncode base data

/-- Recover the base from its multibase code character (restricted to
the sixteen bases the repository's encode operations produce). -/
def baseFromCode (c : Char) : Option Base :=
  if c = '0' then some Base.Base2
  else if c = '7' then some Base.Base8
  else if c = '9' then some Base.Base10
  else if c = 'f' then some Base.Base16Lower
  else if c = 'F' then some Base.Base16Upper
  else if c = 'v' then some Base.Base32HexLower
  else if c = 'V' then some Base.Base32HexUpper
  else if c = 'b' then some Base.Base32Lower
  else if c = 'B' then some Base.Base32Upper
  else if c = 'h' then some Base.Base32Z
  else if c = 'k' then some Base.Base36Lower
  else if c = 'K' then some Base.Base36Upper
  else if c = 'Z' then some Base.Base58Flickr
  else if c = 'z' then some Base.Base58Btc
  else if c = 'm' then some Base.Base64
  else if c = 'u' then some Base.Base64Url
  else none

/-- multibase::decode: the first character selects the base, the rest is
decoded with that base's alphabet. -/
def multibase_decode (s : List Char) : Option (Base × List Nat) :=
  match s with
  | [] => none
  | c :: rest =>
    (baseFromCode c).bind (fun base =>
      (baseDecode base rest).map (fun bytes => (base, bytes)))

/-- The base selected by each encoding operation in the run match of
src/src/multibase.rs lines 59-88 (none for Guess and Decode). -/
def opBase : Operation → Option Base
  | Operation.Guess => none
  | Operation.Decode => none
  | Operation.Base2 => some Base.Base2
  | Operation.Base8 => some Base.Base8
  | Operation.Base10 => some Base.Base10
  | Operation.Base16 => some Base.Base16Lower
  | Operation.Base16Upper => some Base.Base16Upper
  | Operation.Base32Hex => some Base.Base32HexLower
  | Operation.Base32HexUpper => some Base.Base32HexUpper
  | Operation.Base32 => some Base.Base32Lower
  | Operation.Base32Upper => some Base.Base32Upper
  | Operation.Base32Z => some Base.Base32Z
  | Operation.Base36 => some Base.Base36Lower
  | Operation.Base36Upper => some Base.Base36Upper
  | Operation.Base58Flickr => some Base.Base58Flickr
  | Operation.Base58Btc => some Base.Base58Btc
  | Operation.Base64 => some Base.Base64
  | Operation.Base64Url => some Base.Base64Url

/-- The encode helper of src/src/multibase.rs lines 105-111: writes
multibase::encode(base, stdin bytes) to stdout. -/
def run_encode (base : Base) (data : List Nat) : List Char :=
  multibase_encode base data

/-- The Operation::Decode arm of src/src/multibase.rs lines 67-71:
writes multibase::decode(input.trim_end())?.1 to stdout; a decode error
is modelled as none. -/
def run_decode (input : List Char) : Option (List Nat) :=
  (multibase_decode (rust_trim_end input)).map (fun p => p.2)

theorem base_roundtrip (base : Base) (data : List Nat)
    (hdata : ∀ x ∈ data, x < 256) :
    baseDecode base (baseEncode base data) = some data ∧
    (∀ c ∈ baseEncode base data, c ∈ base.alphabet) := by
  cases base with
  | Base2 =>
    exact ⟨decodeBits_encodeBits 1 BASE2_ALPHA data (by norm_num) (by norm_num)
        (by decide) (by decide) hdata,
      mem_encodeBits 1 BASE2_ALPHA data (by norm_num) (by decide)⟩
  | Base8 =>
    exact ⟨decodeBits_encodeBits 3 BASE8_ALPHA data (by norm_num) (by norm_num)
        (by decide) (by decide) hdata,
      mem_encodeBits 3 BASE8_ALPHA data (by norm_num) (by decide)⟩
  | Base10 =>
    exact ⟨decodeBigInt_encodeBigInt 10 BASE10_ALPHA data (by norm_num)
        (by decide) (by decide) hdata,
      mem_encodeBigInt 10 BASE10_ALPHA data (by norm_num) (by decide)⟩
  | Base16Lower =>
    exact ⟨decodeBits_encodeBits 4 BASE16_LOWER_ALPHA data (by norm_num) (by norm_num)
        (by decide) (by decide) hdata,
      mem_encodeBits 4 BASE16_LOWER_ALPHA data (by norm_num) (by decide)⟩
  | Base16Upper =>
    exact ⟨decodeBits_encodeBits 4 BASE16_UPPER_ALPHA data (by norm_num) (by norm_num)
        (by decide) (by decide) hdata,
      mem_encodeBits 4 BASE16_UPPER_ALPHA data (by norm_num) (by decide)⟩
  | Base32HexLower =>
    exact ⟨decodeBits_encodeBits 5 BASE32_HEX_LOWER_ALPHA data (by norm_num) (by norm_num)
        (by decide) (by decide) hdata,
      mem_encodeBits 5 BASE32_HEX_LOWER_ALPHA data (by norm_num) (by decide)⟩
  | Base32HexUpper =>
    exact ⟨decodeBits_encodeBits 5 BASE32_HEX_UPPER_ALPHA data (by norm_num) (by norm_num)
        (by decide) (by decide) hdata,
      mem_encodeBits 5 BASE32_HEX_UPPER_ALPHA data (by norm_num) (by decide)⟩
  | Base32Lower =>
    exact ⟨decodeBits_encodeBits 5 BASE32_LOWER_ALPHA data (by norm_num) (by norm_num)
        (by decide) (by decide) hdata,
      mem_encodeBits 5 BASE32_LOWER_ALPHA data (by norm_num) (by decide)⟩
  | Base32Upper =>
    exact ⟨decodeBits_encodeBits 5 BASE32_UPPER_ALPHA data (by norm_num) (by norm_num)
        (by decide) (by decide) hdata,
      mem_encodeBits 5 BASE32_UPPER_ALPHA data (by norm_num) (by decide)⟩
  | Base32Z =>
    exact ⟨decodeBits_encodeBits 5 BASE32_Z_ALPHA data (by norm_num) (by norm_num)
        (by decide) (by decide) hdata,
      mem_encodeBits 5 BASE32_Z_ALPHA data (by norm_num) (by decide)⟩
  | Base36Lower =>
    exact ⟨decodeBigInt_encodeBigInt 36 BASE36_LOWER_ALPHA data (by norm_num)
        (by decide) (by decide) hdata,
      mem_encodeBigInt 36 BASE36_LOWER_ALPHA data (by norm_num) (by decide)⟩
  | Base36Upper =>
    exact ⟨decodeBigInt_encodeBigInt 36 BASE36_UPPER_ALPHA data (by norm_num)
        (by decide) (by decide) hdata,
      mem_encodeBigInt 36 BASE36_UPPER_ALPHA data (by norm_num) (by decide)⟩
  | Base58Flickr =>
    exact ⟨decodeBigInt_encodeBigInt 58 BASE58_FLICKR_ALPHA data (by norm_num)
        (by decide) (by decide) hdata,
      mem_encodeBigInt 58 BASE58_FLICKR_ALPHA data (by norm_num) (by decide)⟩
  | Base58Btc =>
    exact ⟨decodeBigInt_encodeBigInt 58 BASE58_BTC_ALPHA data (by norm_num)
        (by decide) (by decide) hdata,
      mem_encodeBigInt 58 BASE58_BTC_ALPHA data (by norm_num) (by decide)⟩
  | Base64 =>
    exact ⟨decodeBits_encodeBits 6 BASE64_ALPHA data (by norm_num) (by norm_num)
        (by decide) (by decide) hdata,
      mem_encodeBits 6 BASE64_ALPHA data (by norm_num) (by decide)⟩
  | Base64Url =>
    exact ⟨decodeBits_encodeBits 6 BASE64_URL_ALPHA data (by norm_num) (by norm_num)
        (by decide) (by decide) hdata,
      mem_encodeBits 6 BASE64_URL_ALPHA data (by norm_num) (by decide)⟩

theorem alphabet_not_whitespace (base : Base) :
    ∀ c ∈ base.alphabet, rustWhitespace c = false := by
  cases base <;> decide

theorem code_not_whitespace (base : Base) : rustWhitespace base.code = false := by
  cases base <;> decide

theorem baseFromCode_code (base : Base) : baseFromCode base.code = some base := by
  cases base <;> rfl

/-- C8: for every byte sequence supplied on stdin and every base-encoding
operation (Base2 through Base64Url) of src/src/multibase.rs, running the
BaseDecode operation on the produced output writes back exactly the
original bytes: encode prefixes the multibase code character and decode
strips it, and since the encoded output contains no trailing whitespace
the trim_end applied before decoding does not alter it. -/
theorem C8_multibase_roundtrip (data : List Nat) (op : Operation) (base : Base)
    (hop : opBase op = some base) (hdata : ∀ x ∈ data, x < 256) :
    rust_trim_end (run_encode base data) = run_encode base data ∧
    run_decode (run_encode base data) = some data ∧
    run_encode base data = base.code :: baseEncode base data := by
  obtain ⟨hdec, hmem⟩ := base_roundtrip base data hdata
  have htrim : rust_trim_end (run_encode base data) = run_encode base data := by
    apply trim_end_eq_self
    intro c hc
    rcases List.mem_cons.mp hc with rfl | h
    · exact code_not_whitespace base
    · exact alphabet_not_whitespace base c (hmem c h)
  refine ⟨htrim, ?_, rfl⟩
  rw [run_decode, htrim]
  show (multibase_decode (base.code :: baseEncode base data)).map (fun p => p.2) =
    some data
  rw [multibase_decode, baseFromCode_code base]
  show ((baseDecode base (baseEncode base data)).map
      (fun bytes => (base, bytes))).map (fun p => p.2) = some data
  rw [hdec]
  rfl

/-- Witness for C8: the operation Base58Btc encodes the bytes
[0, 255, 7]; trimming is the identity on the output and BaseDecode
recovers the bytes. -/
theorem C8_multibase_roundtrip_witness :
    (opBase Operation.Base58Btc = some Base.Base58Btc ∧
      ∀ x ∈ [0, 255, 7], x < 256) ∧
    (rust_trim_end (run_encode Base.Base58Btc [0, 255, 7]) =
        run_encode Base.Base58Btc [0, 255, 7] ∧
      run_decode (run_encode Base.Base58Btc [0, 255, 7]) = some [0, 255, 7] ∧
      run_encode Base.Base58Btc [0, 255, 7] =
        Base.code Base.Base58Btc :: baseEncode Base.Base58Btc [0, 255, 7]) := by
  exact ⟨⟨rfl, by decide⟩,
    C8_multibase_roundtrip [0, 255, 7] Operation.Base58Btc Base.Base58Btc rfl
      (by decide)⟩

end Multibase

end CPK
